import Mathlib

/-!
Verification of the HTTP server core of rust-integration-services.

The development shallowly embeds the code of src/src/http (http_server.rs,
server/http_server.rs, http_receiver.rs, http_request.rs, http_response.rs,
common/event_handler.rs) into Lean. Byte strings are lists of Nat (each < 256;
the inputs considered are ASCII), Rust HashMap values are association lists
whose insert replaces an existing entry in place and otherwise appends, and
fallible or panicking Rust code returns Except. Definitions keep the source
names where Lean allows it.
-/

/-! ### Byte-string primitives

Rust str operations (trim, split_whitespace, split_once) restricted to ASCII
byte strings. isWsB covers exactly the ASCII characters satisfying Rust
char::is_whitespace: tab 9, LF 10, vertical tab 11, form feed 12, CR 13,
space 32. -/

instance {ε α : Type} [DecidableEq ε] [DecidableEq α] : DecidableEq (Except ε α) := fun x y =>
  match x, y with
  | Except.ok a, Except.ok b =>
    if h : a = b then isTrue (by rw [h]) else isFalse (by intro hc; cases hc; exact h rfl)
  | Except.error a, Except.error b =>
    if h : a = b then isTrue (by rw [h]) else isFalse (by intro hc; cases hc; exact h rfl)
  | Except.ok _, Except.error _ => isFalse (by intro hc; cases hc)
  | Except.error _, Except.ok _ => isFalse (by intro hc; cases hc)

def isWsB (c : Nat) : Bool :=
  c == 9 || c == 10 || c == 11 || c == 12 || c == 13 || c == 32

/-- Rust str::trim on an ASCII byte string: drop whitespace from both ends. -/
def trimB (s : List Nat) : List Nat :=
  ((s.dropWhile isWsB).reverse.dropWhile isWsB).reverse

/-- BufReader::read_line: the returned line includes the terminating LF when
one is present; at end of stream the remainder is returned as the line. -/
def readLineB (s : List Nat) : List Nat × List Nat :=
  match s.dropWhile (fun c => c != 10) with
  | [] => (s.takeWhile (fun c => c != 10), [])
  | nl :: rest => (s.takeWhile (fun c => c != 10) ++ [nl], rest)

/-- Accumulator-style tokenizer behind splitWhitespaceB; cur holds the current
token reversed. -/
def splitWSAux (cur : List Nat) : List Nat → List (List Nat)
  | [] => if cur.isEmpty then [] else [cur.reverse]
  | c :: rest =>
    if isWsB c then
      if cur.isEmpty then splitWSAux [] rest else cur.reverse :: splitWSAux [] rest
    else splitWSAux (c :: cur) rest

/-- Rust str::split_whitespace on an ASCII byte string: the maximal
whitespace-free runs, in order. -/
def splitWhitespaceB (s : List Nat) : List (List Nat) :=
  splitWSAux [] s

/-- Rust str::split_once at the first colon (byte 58). -/
def splitOnceColonB : List Nat → Option (List Nat × List Nat)
  | [] => none
  | c :: rest =>
    if c == 58 then some ([], rest)
    else (splitOnceColonB rest).map (fun p => (c :: p.1, p.2))

def isDigitB (c : Nat) : Bool := 48 ≤ c && c ≤ 57

/-- Rust str::parse of an unsigned integer, restricted to plain digit strings
(the only shape this code base ever serializes): all-digit, nonempty. -/
def parseDecB (s : List Nat) : Option Nat :=
  if s.isEmpty then none
  else if s.all isDigitB then some (s.foldl (fun a c => a * 10 + (c - 48)) 0) else none

/-- Little-endian decimal digits of n, with fuel for structural recursion; fuel
at least n is always enough. -/
def decDigitsAux : Nat → Nat → List Nat
  | 0, _ => []
  | fuel + 1, n => if n = 0 then [] else n % 10 :: decDigitsAux fuel (n / 10)

/-- Display of an unsigned integer as ASCII decimal digits, as Rust formats a
u16 or usize with the empty format. -/
def decReprB (n : Nat) : List Nat :=
  if n = 0 then [48] else ((decDigitsAux n n).reverse.map (fun d => d + 48))

theorem decDigitsAux_eq_digits (fuel : Nat) :
    ∀ n, n ≤ fuel → decDigitsAux fuel n = Nat.digits 10 n := by
  induction fuel with
  | zero =>
    intro n hn
    interval_cases n
    simp [decDigitsAux]
  | succ fuel ih =>
    intro n hn
    by_cases h0 : n = 0
    · simp [decDigitsAux, h0]
    · rw [decDigitsAux, if_neg h0, Nat.digits_def' (by norm_num : 1 < 10) (Nat.pos_of_ne_zero h0)]
      have hdiv : n / 10 ≤ fuel := by
        have : n / 10 < n := Nat.div_lt_self (Nat.pos_of_ne_zero h0) (by norm_num)
        omega
      rw [ih (n / 10) hdiv]

theorem foldl_reverse_ofDigits (L : List Nat) :
    ∀ a : Nat, L.reverse.foldl (fun x d => x * 10 + d) a = a * 10 ^ L.length + Nat.ofDigits 10 L := by
  induction L with
  | nil => intro a; simp
  | cons d T ih =>
    intro a
    simp only [List.reverse_cons, List.foldl_append, List.foldl_cons, List.foldl_nil, ih,
      Nat.ofDigits_cons, List.length_cons]
    ring

theorem decReprB_all_digits (n : Nat) : (decReprB n).all isDigitB = true := by
  rw [decReprB]
  by_cases h0 : n = 0
  · simp [h0]; decide
  · rw [if_neg h0, decDigitsAux_eq_digits n n le_rfl]
    rw [List.all_eq_true]
    intro c hc
    rw [List.mem_map] at hc
    obtain ⟨d, hd, rfl⟩ := hc
    rw [List.mem_reverse] at hd
    have : d < 10 := Nat.digits_lt_base (by norm_num) hd
    simp [isDigitB]
    omega

theorem decReprB_ne_nil (n : Nat) : decReprB n ≠ [] := by
  rw [decReprB]
  by_cases h0 : n = 0
  · simp [h0]
  · rw [if_neg h0, decDigitsAux_eq_digits n n le_rfl]
    simp [Nat.digits_ne_nil_iff_ne_zero, h0]

/-- Parsing the decimal serialization of n recovers n. -/
theorem parseDecB_decReprB (n : Nat) : parseDecB (decReprB n) = some n := by
  rw [parseDecB, if_neg (by simpa [List.isEmpty_iff] using decReprB_ne_nil n),
    if_pos (decReprB_all_digits n)]
  by_cases h0 : n = 0
  · subst h0; decide
  · rw [decReprB, if_neg h0, decDigitsAux_eq_digits n n le_rfl]
    rw [List.foldl_map]
    have : ∀ (L : List Nat) a, L.foldl (fun x y => x * 10 + (y + 48 - 48)) a
        = L.foldl (fun x d => x * 10 + d) a := by
      intro L
      induction L with
      | nil => intro a; rfl
      | cons d T ih => intro a; simp only [List.foldl_cons, Nat.add_sub_cancel, ih]
    rw [this, foldl_reverse_ofDigits, Nat.ofDigits_digits]
    simp

/-! ### Association-list model of std HashMap

The observable behavior of HashMap insert and get: insert replaces the value of
an existing equal key in place, otherwise adds the entry; lookup finds the
entry with an equal key. Key equality is the exact Rust String equality, so it
is case-sensitive. -/

def mapLookup {κ ν : Type} [DecidableEq κ] (m : List (κ × ν)) (k : κ) : Option ν :=
  (m.find? (fun p => decide (p.1 = k))).map (fun p => p.2)

def mapInsert {κ ν : Type} [DecidableEq κ] (m : List (κ × ν)) (k : κ) (v : ν) : List (κ × ν) :=
  if m.any (fun p => decide (p.1 = k)) then
    m.map (fun p => if p.1 = k then (k, v) else p)
  else m ++ [(k, v)]

/-- ASCII byte string of a Lean string literal, used to write concrete inputs. -/
def strB (s : String) : List Nat := s.toList.map Char.toNat

def contentLengthKey : List Nat := strB "Content-Length"

/-! ### The shared header-reading loop of HttpRequest::from_stream and
HttpResponse::from_stream (src/src/http/http_request.rs:120-133,
src/src/http/http_response.rs:110-123)

Each iteration reads one line; a line that trims to empty ends the headers; a
line with a colon is split at the first colon and both halves are trimmed and
inserted; a line without a colon is skipped. The fuel argument only makes the
recursion structural: stream length plus one is always enough fuel because
every iteration either consumes at least one byte or stops. -/

def headerInsertLine (m : List (List Nat × List Nat)) (t : List Nat) : List (List Nat × List Nat) :=
  match splitOnceColonB t with
  | some kv => mapInsert m (trimB kv.1) (trimB kv.2)
  | none => m

def headersLoopB : Nat → List Nat → List (List Nat × List Nat) → List (List Nat × List Nat) × List Nat
  | 0, s, m => (m, s)
  | fuel + 1, s, m =>
    match readLineB s with
    | (line, rest) =>
      if (trimB line).isEmpty then (m, rest)
      else headersLoopB fuel rest (headerInsertLine m (trimB line))

/-! ### HttpResponse (src/src/http/http_response.rs) -/

structure RHttpResponse where
  protocol : List Nat
  status_code : Nat
  status_text : List Nat
  headers : List (List Nat × List Nat)
  body : List Nat
deriving DecidableEq, Repr

/-- HttpResponse::to_bytes (http_response.rs:82-98): status line, then one
key colon space value CRLF per header in storage order, then CRLF, then the
raw body. -/
def RHttpResponse.to_bytes (r : RHttpResponse) : List Nat :=
  (r.protocol ++ [32] ++ decReprB r.status_code ++ [32] ++ r.status_text)
    ++ [13, 10]
    ++ (r.headers.map (fun p => p.1 ++ [58, 32] ++ p.2 ++ [13, 10])).flatten
    ++ [13, 10]
    ++ r.body

/-- HttpResponse::from_stream (http_response.rs:100-141). The Rust code indexes
the whitespace-split status line at 0, 1, 2 (panicking when absent), parses the
status code with unwrap into a u16, reads headers, then reads exactly
Content-Length bytes of body when that exact key is present, defaulting a
non-numeric value to 0. Panics and io errors both surface as Except.error. -/
def RHttpResponse.from_stream (s : List Nat) : Except String RHttpResponse :=
  match readLineB s with
  | (buffer, rest1) =>
    match splitWhitespaceB buffer with
    | protocol :: codeTok :: status_text :: _ =>
      match parseDecB codeTok with
      | none => Except.error "panicked: invalid digit found in string"
      | some code =>
        if code < 65536 then
          match headersLoopB (rest1.length + 1) rest1 [] with
          | (headers, rest2) =>
            match mapLookup headers contentLengthKey with
            | some cl =>
              let len := (parseDecB cl).getD 0
              if len ≤ rest2.length then
                Except.ok ⟨protocol, code, status_text, headers, rest2.take len⟩
              else Except.error "failed to fill whole buffer"
            | none => Except.ok ⟨protocol, code, status_text, headers, []⟩
        else Except.error "panicked: number too large to fit in target type"
    | _ => Except.error "panicked: index out of bounds"

/-! ### HttpRequest (src/src/http/http_request.rs) -/

structure RHttpRequest where
  method : List Nat
  path : List Nat
  protocol : List Nat
  headers : List (List Nat × List Nat)
  body : List Nat
deriving DecidableEq, Repr

/-- HttpRequest::from_stream (http_request.rs:110-151): same structure as the
response parser, with the request line in place of the status line. -/
def RHttpRequest.from_stream (s : List Nat) : Except String RHttpRequest :=
  match readLineB s with
  | (buffer, rest1) =>
    match splitWhitespaceB buffer with
    | method :: path :: protocol :: _ =>
      match headersLoopB (rest1.length + 1) rest1 [] with
      | (headers, rest2) =>
        match mapLookup headers contentLengthKey with
        | some cl =>
          let len := (parseDecB cl).getD 0
          if len ≤ rest2.length then
            Except.ok ⟨method, path, protocol, headers, rest2.take len⟩
          else Except.error "failed to fill whole buffer"
        | none => Except.ok ⟨method, path, protocol, headers, []⟩
    | _ => Except.error "panicked: index out of bounds"

/-! ### String-level request and response used by the server embeddings

MHttpRequest follows src/src/http/http_request.rs plus the params field that
HttpServer::incoming_request (http_server.rs:176) assigns; the revision of
http_request.rs declaring params is not in the snapshot. Modelled from the
spec: a Request carries path parameters, empty until matched. -/

structure MHttpRequest where
  method : String
  path : String
  protocol : String
  headers : List (String × String)
  params : List (String × String)
  body : List Nat
  ip : Option String
deriving DecidableEq, Repr

structure MHttpResponse where
  protocol : String
  status_code : Nat
  status_text : String
  headers : List (String × String)
  body : List Nat
deriving DecidableEq, Repr

/-- HttpResponse::new (http_response.rs:17-25). -/
def MHttpResponse.new : MHttpResponse := ⟨"HTTP/1.1", 0, "", [], []⟩

/-- HttpResponse::status (http_response.rs:55-59). -/
def MHttpResponse.status (r : MHttpResponse) (code : Nat) (text : String) : MHttpResponse :=
  { r with status_code := code, status_text := text }

/-- HttpResponse::ok (http_response.rs:27-29). -/
def MHttpResponse.ok : MHttpResponse := MHttpResponse.new.status 200 "OK"

/-- HttpResponse::not_found (http_response.rs:47-49). -/
def MHttpResponse.not_found : MHttpResponse := MHttpResponse.new.status 404 "Not Found"

/-- HttpResponse::internal_server_error (http_response.rs:51-53). -/
def MHttpResponse.internal_server_error : MHttpResponse :=
  MHttpResponse.new.status 500 "Internal Server Error"

/-- HttpResponse::body_string (http_response.rs:67-71): set the body and the
exact Content-Length header. -/
def MHttpResponse.body_string (r : MHttpResponse) (body : String) : MHttpResponse :=
  { r with body := strB body,
           headers := mapInsert r.headers "Content-Length" (Nat.repr (strB body).length) }

/-! ### Route resolution

Modelled from the spec: the matchit router consumed by http_server.rs is an
external crate, so resolution follows section 4.3 of the spec. A pattern is a
slash-separated list of segments, each literal or a braced named parameter; a
path matches when the segment counts agree, every literal segment agrees, and
every parameter segment captures a nonempty path segment; when several
patterns match, a literal segment beats a parameter segment at the first
position where they differ. Handlers are identified by a number; the handler
functions themselves live in a separate table so that invocations can be
observed. -/

inductive SegPat
  | lit (s : List Char)
  | cap (name : List Char)
deriving DecidableEq, Repr

/-- Rust str::split at the slash separator, keeping empty segments, written on
the character list so that it evaluates inside the kernel. -/
def splitSlash : List Char → List (List Char)
  | [] => [[]]
  | c :: rest =>
    if c = '/' then [] :: splitSlash rest
    else
      match splitSlash rest with
      | seg :: segs => (c :: seg) :: segs
      | [] => [[c]]

/-- A pattern segment: braced segments are named parameters, the rest are
literals. -/
def segOfChars (s : List Char) : SegPat :=
  if s.head? = some '\x7b' ∧ s.getLast? = some '\x7d' then SegPat.cap (s.drop 1).dropLast
  else SegPat.lit s

def patSegsOf (pattern : String) : List SegPat := (splitSlash pattern.toList).map segOfChars

def pathSegsOf (path : String) : List (List Char) := splitSlash path.toList

def matchSegs : List SegPat → List (List Char) → Option (List (List Char × List Char))
  | [], [] => some []
  | SegPat.lit s :: ps, seg :: ss => if s = seg then matchSegs ps ss else none
  | SegPat.cap n :: ps, seg :: ss =>
    if seg.isEmpty then none else (matchSegs ps ss).map (fun bs => (n, seg) :: bs)
  | _, _ => none

def segPrio : SegPat → Nat
  | SegPat.lit _ => 1
  | SegPat.cap _ => 0

def patBetter : List SegPat → List SegPat → Bool
  | a :: as, b :: bs =>
    if segPrio b < segPrio a then true
    else if segPrio a < segPrio b then false
    else patBetter as bs
  | _, _ => false

def routerAtAux (path : String) :
    Option (String × Nat × List (List Char × List Char)) → List (String × Nat) →
    Option (String × Nat × List (List Char × List Char))
  | best, [] => best
  | best, r :: rs =>
    match matchSegs (patSegsOf r.1) (pathSegsOf path) with
    | none => routerAtAux path best rs
    | some ps =>
      match best with
      | none => routerAtAux path (some (r.1, r.2, ps)) rs
      | some b =>
        if patBetter (patSegsOf r.1) (patSegsOf b.1) then routerAtAux path (some (r.1, r.2, ps)) rs
        else routerAtAux path (some b) rs

/-- Router::at of matchit as used at http_server.rs:174: the winning route's
handler and its parameter bindings in path order, or none; the bindings are
converted to owned strings exactly as http_server.rs:176 does. -/
def routerAt (routes : List (String × Nat)) (path : String) :
    Option (Nat × List (String × String)) :=
  (routerAtAux path none routes).map
    (fun b => (b.2.1, b.2.2.map (fun kv => (String.mk kv.1, String.mk kv.2))))

/-! ### The hyper side of one request (http_server.rs:165-238) -/

/-- Outcome of awaiting one handler callback: a response, or an unwound panic
caught by catch_unwind. -/
inductive HandlerOutcome
  | ok (r : MHttpResponse)
  | panicked
deriving DecidableEq, Repr

structure HyperResponse where
  status : Nat
  headers : List (String × String)
  body : List Nat
deriving DecidableEq, Repr

/-- Models the http crate validity check on a header name, and the check on a
header value; external collaborators of build_http_response. Every response the
theorems below build has an empty header list, so only totality matters. -/
def header_name_ok (k : String) : Bool :=
  !k.isEmpty && k.toList.all (fun c => c.isAlphanum || c = '-' || c = '_')

def header_value_ok (v : String) : Bool :=
  v.toList.all (fun c => c.toNat = 9 || (32 ≤ c.toNat && c.toNat ≤ 255 && c.toNat ≠ 127))

def put_headers : List (String × String) → List (String × String) →
    Except String (List (String × String))
  | acc, [] => Except.ok acc
  | acc, (k, v) :: rest =>
    if header_name_ok k && header_value_ok v then put_headers (mapInsert acc k.toLower v) rest
    else Except.error "invalid header"

/-- HttpServer::build_http_response (http_server.rs:226-234): a builder
response with the status (valid range 100 to 999), the body, and each header
inserted after validation; any failure propagates as an error. -/
def build_http_response (res : MHttpResponse) : Except String HyperResponse :=
  if 100 ≤ res.status_code ∧ res.status_code ≤ 999 then
    (put_headers [] res.headers).map (fun hs => HyperResponse.mk res.status_code hs res.body)
  else Except.error "invalid status code"

/-- HttpServer::hyper_internal_server_error_response (http_server.rs:236-238). -/
def hyper_internal_server_error_response : HyperResponse := ⟨500, [], []⟩

/-- HttpServer::incoming_request (src/src/http/http_server.rs:165-211),
together with the list of handler invocations it performs: the argument
reqResult is the outcome of build_http_request; a matched route has its params
collected into the request before the callback runs under catch_unwind, a
caught panic becomes HttpResponse::internal_server_error, and an unmatched
path becomes HttpResponse::not_found with no callback invoked. -/
def incoming_request (routes : List (String × Nat))
    (handlers : Nat → MHttpRequest → HandlerOutcome)
    (reqResult : Except String MHttpRequest) : HyperResponse × List (Nat × MHttpRequest) :=
  match reqResult with
  | Except.error _ => (hyper_internal_server_error_response, [])
  | Except.ok request =>
    match routerAt routes request.path with
    | some hp =>
      let request := { request with params := hp.2 }
      let response := match handlers hp.1 request with
        | HandlerOutcome.ok res => res
        | HandlerOutcome.panicked => MHttpResponse.internal_server_error
      match build_http_response response with
      | Except.ok hres => (hres, [(hp.1, request)])
      | Except.error _ => (hyper_internal_server_error_response, [(hp.1, request)])
    | none =>
      match build_http_response MHttpResponse.not_found with
      | Except.ok hres => (hres, [])
      | Except.error _ => (hyper_internal_server_error_response, [])

/-- HttpServer::incoming_request of the work-in-progress variant
(src/src/http/server/http_server.rs:140-171): the params collection is
commented out, so the callback receives the request without bindings, and an
unmatched path answers HttpResponse::internal_server_error, not not_found.
The From conversion of an HttpResponse into a hyper response is absent from
the snapshot; modelled from the spec it carries status, headers and body over
unchanged. -/
def variant_incoming_request (routes : List (String × Nat))
    (handlers : Nat → MHttpRequest → HandlerOutcome)
    (request : MHttpRequest) : HyperResponse × List (Nat × MHttpRequest) :=
  match routerAt routes request.path with
  | some hp =>
    let req := { request with params := [] }
    let response := match handlers hp.1 req with
      | HandlerOutcome.ok res => res
      | HandlerOutcome.panicked => MHttpResponse.internal_server_error
    (⟨response.status_code, response.headers, response.body⟩, [(hp.1, req)])
  | none =>
    (⟨MHttpResponse.internal_server_error.status_code,
      MHttpResponse.internal_server_error.headers,
      MHttpResponse.internal_server_error.body⟩, [])

/-- The routing tail of one HttpReceiver session
(src/src/http/http_receiver.rs:186-206): the route key is the method and path
joined by a bar, an unknown key writes HttpResponse::not_found, a known key
awaits the callback with no fault barrier (a panic aborts the whole session
task before anything is written), and a response with a nonempty body gets an
exact Content-Length header before being written. The returned list holds the
responses written to the stream. -/
def receiver_session (routes : List (String × Nat))
    (handlers : Nat → String → MHttpRequest → HandlerOutcome)
    (uuid : String) (request : MHttpRequest) : Except String (List MHttpResponse) :=
  match mapLookup routes (request.method ++ "|" ++ request.path) with
  | none => Except.ok [MHttpResponse.not_found]
  | some h =>
    match handlers h uuid request with
    | HandlerOutcome.panicked => Except.error "handler panicked: session task aborted, nothing written"
    | HandlerOutcome.ok response =>
      if response.body.isEmpty then Except.ok [response]
      else Except.ok [{ response with
        headers := mapInsert response.headers "Content-Length" (Nat.repr response.body.length) }]

/-! ### The accept loops

Both serve loops are driven by the sequence of tokio select outcomes they
observe: a SIGTERM or SIGINT delivery, or one accept result. The loop body of
HttpServer::receive (src/src/http/http_server.rs:80-117) drops the listener
and breaks on a signal, logs and continues on an accept error, and spawns one
connection task per accepted connection; after the loop it joins every spawned
task. The loop body of HttpReceiver::receive
(src/src/http/http_receiver.rs:128-216) breaks on a signal, calls unwrap on
the accept result (panicking the serve future on an accept error), spawns one
session per accepted connection, and joins every spawned task after the loop.
A session is a function from the connection to its result, applied when the
task is joined, so a drained result list says every spawned session ran to
completion. -/

inductive AcceptEvent (σ : Type)
  | sigterm
  | sigint
  | acceptOk (c : σ)
  | acceptErr
deriving DecidableEq, Repr

/-- The select loop of HttpServer::receive. The boolean records that the
listener was dropped before the loop ended; the list is the join set. A run
that exhausts its events without a signal is still looping: none. -/
def receiveGo {σ : Type} (joinSet : List σ) : List (AcceptEvent σ) → Option (Bool × List σ)
  | [] => none
  | AcceptEvent.sigterm :: _ => some (true, joinSet)
  | AcceptEvent.sigint :: _ => some (true, joinSet)
  | AcceptEvent.acceptErr :: evs => receiveGo joinSet evs
  | AcceptEvent.acceptOk c :: evs => receiveGo (joinSet ++ [c]) evs

/-- HttpServer::receive: run the select loop from an empty join set, then join
every spawned session to completion. -/
def receive {σ τ : Type} (run : σ → τ) (events : List (AcceptEvent σ)) : Option (Bool × List τ) :=
  (receiveGo [] events).map (fun p => (p.1, p.2.map run))

/-- The select loop of HttpReceiver::receive: identical shape except that an
accept error hits result.unwrap and panics the serve future. -/
def receiver_loop {σ : Type} (joinSet : List σ) :
    List (AcceptEvent σ) → Option (Except String (List σ))
  | [] => none
  | AcceptEvent.sigterm :: _ => some (Except.ok joinSet)
  | AcceptEvent.sigint :: _ => some (Except.ok joinSet)
  | AcceptEvent.acceptErr :: _ =>
    some (Except.error "panicked: called Result::unwrap on an Err value")
  | AcceptEvent.acceptOk c :: evs => receiver_loop (joinSet ++ [c]) evs

/-- HttpReceiver::receive: the loop from an empty join set, then the join of
every spawned session. -/
def receiver_receive {σ τ : Type} (run : σ → τ) (events : List (AcceptEvent σ)) :
    Option (Except String (List τ)) :=
  (receiver_loop [] events).map (fun e => e.map (fun l => l.map run))

/-- The connections accepted by a prefix of the event sequence, in order. -/
def acceptedOf {σ : Type} : List (AcceptEvent σ) → List σ
  | [] => []
  | AcceptEvent.acceptOk c :: evs => c :: acceptedOf evs
  | _ :: evs => acceptedOf evs

/-! ### Transport dispatch and ALPN (http_server.rs:34-40, 119-163)

HttpServer::tls sets the server ALPN list to h2 then http/1.1. When a TLS
acceptor is configured every accepted connection goes through
HttpServer::tls_connection, otherwise through HttpServer::tcp_connection.
The rustls handshake is an external collaborator; modelled from the spec,
section 4.2: a plaintext peer fails the TLS handshake and the connection is
terminated; a TLS peer succeeds, and the negotiated token is the first entry
of the server list that the client offered (the server list ordering decides
precedence), none when the client offered no protocols, and a nonempty offer
sharing nothing with the server list fails the handshake. -/

def alpn_protocols : List String := ["h2", "http/1.1"]

inductive ClientKind
  | plain
  | tls (offer : List String)
deriving DecidableEq, Repr

inductive ConnOutcome
  | servedH2
  | servedH1
  | dropped
deriving DecidableEq, Repr

def tls_handshake (server_alpn : List String) : ClientKind → Except String (Option String)
  | ClientKind.plain => Except.error "TLS handshake failed"
  | ClientKind.tls offer =>
    if offer.isEmpty then Except.ok none
    else
      match server_alpn.find? (fun t => offer.contains t) with
      | some t => Except.ok (some t)
      | none => Except.error "TLS handshake failed: no application protocol"

/-- The codec match of HttpServer::tls_connection (http_server.rs:151-162):
a negotiated h2 token serves the connection over the http2 builder, anything
else over the http1 builder. -/
def select_codec : Option String → ConnOutcome
  | some t => if t = "h2" then ConnOutcome.servedH2 else ConnOutcome.servedH1
  | none => ConnOutcome.servedH1

/-- One accepted connection end to end (http_server.rs:102-109, 119-163): with
no TLS acceptor the connection is served by tcp_connection over http1; with a
TLS acceptor it is handed to tls_connection, where a failed handshake returns
without serving and a successful one serves via select_codec. -/
def connection_outcome (tls_configured : Bool) (client : ClientKind) : ConnOutcome :=
  if tls_configured then
    match tls_handshake alpn_protocols client with
    | Except.error _ => ConnOutcome.dropped
    | Except.ok tok => select_codec tok
  else ConnOutcome.servedH1

/-! ### Event channels (common/event_handler.rs:13-25, http_receiver.rs:54, 139)

Models the two tokio mpsc channels, external collaborators of the event code:
a channel is its pending queue; a send on the unbounded channel of
EventHandler::new always completes at once by appending; a send on the bounded
channel of HttpReceiver::new, created with capacity 128, appends when the
queue holds fewer than 128 events and otherwise suspends the sender until the
consumer drains an element. -/

inductive SendOutcome (ε : Type)
  | completed (queue : List ε)
  | waits
deriving DecidableEq, Repr

def unbounded_send {ε : Type} (queue : List ε) (e : ε) : SendOutcome ε :=
  SendOutcome.completed (queue ++ [e])

def bounded_send {ε : Type} (capacity : Nat) (queue : List ε) (e : ε) : SendOutcome ε :=
  if queue.length < capacity then SendOutcome.completed (queue ++ [e]) else SendOutcome.waits

def event_channel_capacity : Nat := 128

/-! ### HttpReceiver::is_connection_tls (http_receiver.rs:218-232) -/

/-- The peek outcome handed to the classifier: an io error, or the first bytes
of the stream (at most 8, fewer when the stream holds fewer). -/
def peekBytes (stream : List Nat) : List Nat := stream.take 8

/-- HttpReceiver::is_connection_tls: at least 3 peeked bytes whose prefix is
0x16 0x03 followed by a byte between 0x01 and 0x03 classify as TLS; any
shorter peek, io error, or other prefix is an error. -/
def is_connection_tls (peek : Except String (List Nat)) : Except String Unit :=
  match peek with
  | Except.error err => Except.error err
  | Except.ok buf =>
    if 3 ≤ buf.length then
      match buf with
      | b0 :: b1 :: b2 :: _ =>
        if b0 == 22 && b1 == 3 && (1 ≤ b2 && b2 ≤ 3) then Except.ok ()
        else Except.error "Non-TLS request on TLS receiver."
      | _ => Except.error "Non-TLS request on TLS receiver."
    else Except.error "Could not determine TLS signature."

/-! ### Claim C8: the transport classifier -/

/-- C8: is_connection_tls accepts exactly the peeks returning at least three
bytes whose first three are 0x16, 0x03, and a byte between 0x01 and 0x03; a
peek error propagates as an error, and every input yields either the TLS
classification or a classification error. -/
theorem is_connection_tls_spec (peek : Except String (List Nat)) :
    (is_connection_tls peek = Except.ok () ↔
      ∃ b0 b1 b2 rest, peek = Except.ok (b0 :: b1 :: b2 :: rest) ∧
        b0 = 0x16 ∧ b1 = 0x03 ∧ 0x01 ≤ b2 ∧ b2 ≤ 0x03) ∧
    (∀ e, peek = Except.error e → is_connection_tls peek = Except.error e) ∧
    (is_connection_tls peek = Except.ok () ∨ ∃ msg, is_connection_tls peek = Except.error msg) := by
  refine ⟨?_, ?_, ?_⟩
  · match peek with
    | Except.error e => simp [is_connection_tls]
    | Except.ok [] => simp [is_connection_tls]
    | Except.ok [a] => simp [is_connection_tls]
    | Except.ok [a, b] => simp [is_connection_tls]
    | Except.ok (b0 :: b1 :: b2 :: rest) =>
      simp only [is_connection_tls, List.length_cons]
      rw [if_pos (by omega)]
      constructor
      · intro h
        by_cases hc : (b0 == 22 && b1 == 3 && (decide (1 ≤ b2) && decide (b2 ≤ 3))) = true
        · simp only [Bool.and_eq_true, beq_iff_eq, decide_eq_true_eq] at hc
          exact ⟨b0, b1, b2, rest, rfl, hc.1.1, hc.1.2, hc.2.1, hc.2.2⟩
        · rw [if_neg hc] at h
          cases h
      · rintro ⟨c0, c1, c2, crest, heq, h0, h1, h2, h3⟩
        cases heq
        have hc : (b0 == 22 && b1 == 3 && (decide (1 ≤ b2) && decide (b2 ≤ 3))) = true := by
          simp only [Bool.and_eq_true, beq_iff_eq, decide_eq_true_eq]
          exact ⟨⟨h0, h1⟩, h2, h3⟩
        rw [if_pos hc]
  · intro e he
    subst he
    rfl
  · match peek with
    | Except.error e => exact Or.inr ⟨e, rfl⟩
    | Except.ok buf =>
      simp only [is_connection_tls]
      by_cases hl : 3 ≤ buf.length
      · rw [if_pos hl]
        match buf with
        | b0 :: b1 :: b2 :: rest =>
          dsimp only
          by_cases hc : (b0 == 22 && b1 == 3 && (decide (1 ≤ b2) && decide (b2 ≤ 3))) = true
          · rw [if_pos hc]; exact Or.inl rfl
          · rw [if_neg hc]; exact Or.inr ⟨_, rfl⟩
        | [] => simp at hl
        | [a] => simp at hl
        | [a, b] => simp at hl
      · rw [if_neg hl]
        exact Or.inr ⟨_, rfl⟩

/-- C8 witness: the classifier at concrete peeks, through is_connection_tls_spec. -/
theorem is_connection_tls_spec_witness :
    is_connection_tls (Except.ok [0x16, 0x03, 0x01, 0, 0, 0, 0, 0]) = Except.ok () ∧
    is_connection_tls (Except.error "peek failed") = Except.error "peek failed" := by
  constructor
  · exact (is_connection_tls_spec (Except.ok [0x16, 0x03, 0x01, 0, 0, 0, 0, 0])).1.mpr
      ⟨0x16, 0x03, 0x01, [0, 0, 0, 0, 0], rfl, rfl, rfl, by decide, by decide⟩
  · exact (is_connection_tls_spec (Except.error "peek failed")).2.1 "peek failed" rfl

/-! ### Claim C5: transport and ALPN dispatch -/

/-- C5 counterexample: on a TLS-configured listener a plaintext client fails
the handshake and the connection is dropped without being served, so it is not
served with the HTTP/1.1 codec as the claim states. -/
theorem connection_outcome_plain_on_tls_cex :
    connection_outcome true ClientKind.plain = ConnOutcome.dropped ∧
    connection_outcome true ClientKind.plain ≠ ConnOutcome.servedH1 := by
  exact ⟨rfl, by decide⟩

/-- C5 amended: the server ALPN offer lists h2 before http/1.1; every
connection on a listener without TLS is served over HTTP/1.1; on a TLS
listener a client whose offer contains h2 is served over HTTP/2, a client
offering http/1.1 but not h2 over HTTP/1.1, a client offering no protocol over
HTTP/1.1, and a plaintext client is dropped at the handshake. -/
theorem alpn_dispatch_spec :
    alpn_protocols = ["h2", "http/1.1"] ∧
    (∀ client, connection_outcome false client = ConnOutcome.servedH1) ∧
    (∀ offer, "h2" ∈ offer →
      connection_outcome true (ClientKind.tls offer) = ConnOutcome.servedH2) ∧
    (∀ offer, "h2" ∉ offer → "http/1.1" ∈ offer →
      connection_outcome true (ClientKind.tls offer) = ConnOutcome.servedH1) ∧
    connection_outcome true (ClientKind.tls []) = ConnOutcome.servedH1 ∧
    connection_outcome true ClientKind.plain = ConnOutcome.dropped := by
  refine ⟨rfl, fun client => rfl, ?_, ?_, rfl, rfl⟩
  · intro offer h2mem
    have hne : ¬ offer.isEmpty := by
      cases offer with
      | nil => cases h2mem
      | cons a l => simp
    simp [connection_outcome, tls_handshake, hne, List.find?, h2mem, select_codec]
  · intro offer h2nmem h1mem
    have hne : ¬ offer.isEmpty := by
      cases offer with
      | nil => cases h1mem
      | cons a l => simp
    simp [connection_outcome, tls_handshake, hne, List.find?, h2nmem, h1mem, select_codec]

/-- C5 witness: the amended dispatch at concrete clients, through
alpn_dispatch_spec. -/
theorem alpn_dispatch_spec_witness :
    connection_outcome false ClientKind.plain = ConnOutcome.servedH1 ∧
    connection_outcome true (ClientKind.tls ["h2", "http/1.1"]) = ConnOutcome.servedH2 ∧
    connection_outcome true (ClientKind.tls ["http/1.1"]) = ConnOutcome.servedH1 :=
  ⟨alpn_dispatch_spec.2.1 ClientKind.plain,
   alpn_dispatch_spec.2.2.1 ["h2", "http/1.1"] (by decide),
   alpn_dispatch_spec.2.2.2.1 ["http/1.1"] (by decide) (by decide)⟩

/-! ### Claim C6: accept errors -/

/-- C6 counterexample: in HttpReceiver::receive a single accept error ends the
serve future with a panic (result.unwrap), so an accept error does terminate
that accept loop. -/
theorem receiver_accept_error_panics_cex :
    receiver_receive (fun c : Nat => c) [AcceptEvent.acceptErr] =
      some (Except.error "panicked: called Result::unwrap on an Err value") := rfl

/-- C6 amended: in HttpServer::receive an accept error is logged and the loop
goes on with the remaining events unchanged; in HttpReceiver::receive an
accept error panics the serve future. -/
theorem accept_error_isolation :
    (∀ (js : List Nat) (evs : List (AcceptEvent Nat)),
      receiveGo js (AcceptEvent.acceptErr :: evs) = receiveGo js evs) ∧
    (∀ (js : List Nat) (evs : List (AcceptEvent Nat)),
      receiver_loop js (AcceptEvent.acceptErr :: evs) =
        some (Except.error "panicked: called Result::unwrap on an Err value")) :=
  ⟨fun _ _ => rfl, fun _ _ => rfl⟩

/-! ### Claim C7: the event channels -/

/-- C7 counterexample: a send on the HttpReceiver event channel with its queue
holding 128 pending events suspends the sender instead of completing without
waiting. -/
theorem bounded_event_send_full_queue_cex :
    bounded_send event_channel_capacity (List.replicate 128 (0 : Nat)) 1 = SendOutcome.waits := by
  simp [bounded_send, event_channel_capacity]

/-- C7 amended: the EventHandler channel is unbounded, so a send always
completes at once by appending (nothing is ever dropped, the queue has no
bound); the HttpReceiver event channel is bounded at capacity 128 and a send
completes only while the queue holds fewer than 128 events, otherwise the
sending request path waits. -/
theorem event_send_policy :
    (∀ (q : List Nat) (e : Nat), unbounded_send q e = SendOutcome.completed (q ++ [e])) ∧
    (∀ (q : List Nat) (e : Nat), q.length < event_channel_capacity →
      bounded_send event_channel_capacity q e = SendOutcome.completed (q ++ [e])) ∧
    (∀ (q : List Nat) (e : Nat), event_channel_capacity ≤ q.length →
      bounded_send event_channel_capacity q e = SendOutcome.waits) := by
  refine ⟨fun q e => rfl, ?_, ?_⟩
  · intro q e h
    simp [bounded_send, h]
  · intro q e h
    simp [bounded_send]
    omega

/-- C7 witness: the send policies at concrete queues, through
event_send_policy. -/
theorem event_send_policy_witness :
    unbounded_send [5] (7 : Nat) = SendOutcome.completed [5, 7] ∧
    bounded_send event_channel_capacity [5] (7 : Nat) = SendOutcome.completed [5, 7] ∧
    bounded_send event_channel_capacity (List.replicate 128 (5 : Nat)) 7 = SendOutcome.waits :=
  ⟨event_send_policy.1 [5] 7,
   event_send_policy.2.1 [5] 7 (by decide),
   event_send_policy.2.2 (List.replicate 128 5) 7 (by simp [event_channel_capacity])⟩

/-! ### Claim C3: graceful shutdown -/

theorem receiveGo_signal_drains {σ : Type} (sig : AcceptEvent σ)
    (hsig : sig = AcceptEvent.sigterm ∨ sig = AcceptEvent.sigint)
    (post : List (AcceptEvent σ)) :
    ∀ (pre : List (AcceptEvent σ)) (js : List σ),
      (∀ e ∈ pre, e ≠ AcceptEvent.sigterm ∧ e ≠ AcceptEvent.sigint) →
      receiveGo js (pre ++ sig :: post) = some (true, js ++ acceptedOf pre) := by
  intro pre
  induction pre with
  | nil =>
    intro js _
    cases hsig with
    | inl h => subst h; simp [receiveGo, acceptedOf]
    | inr h => subst h; simp [receiveGo, acceptedOf]
  | cons e pre ih =>
    intro js hpre
    have he := hpre e (List.mem_cons_self e pre)
    have hrest : ∀ x ∈ pre, x ≠ AcceptEvent.sigterm ∧ x ≠ AcceptEvent.sigint :=
      fun x hx => hpre x (List.mem_cons_of_mem e hx)
    cases e with
    | sigterm => exact absurd rfl he.1
    | sigint => exact absurd rfl he.2
    | acceptErr =>
      simp only [List.cons_append, receiveGo, acceptedOf]
      exact ih js hrest
    | acceptOk c =>
      simp only [List.cons_append, receiveGo, acceptedOf, List.append_eq]
      rw [ih (js ++ [c]) hrest]
      simp

theorem receiver_loop_signal_drains {σ : Type} (sig : AcceptEvent σ)
    (hsig : sig = AcceptEvent.sigterm ∨ sig = AcceptEvent.sigint)
    (post : List (AcceptEvent σ)) :
    ∀ (pre : List (AcceptEvent σ)) (js : List σ),
      (∀ e ∈ pre, ∃ c, e = AcceptEvent.acceptOk c) →
      receiver_loop js (pre ++ sig :: post) = some (Except.ok (js ++ acceptedOf pre)) := by
  intro pre
  induction pre with
  | nil =>
    intro js _
    cases hsig with
    | inl h => subst h; simp [receiver_loop, acceptedOf]
    | inr h => subst h; simp [receiver_loop, acceptedOf]
  | cons e pre ih =>
    intro js hpre
    obtain ⟨c, rfl⟩ := hpre e (List.mem_cons_self e pre)
    have hrest : ∀ x ∈ pre, ∃ c, x = AcceptEvent.acceptOk c :=
      fun x hx => hpre x (List.mem_cons_of_mem _ hx)
    simp only [List.cons_append, receiver_loop, acceptedOf, List.append_eq]
    rw [ih (js ++ [c]) hrest]
    simp

/-- C3: as soon as the select loop observes SIGTERM or SIGINT, the listener is
dropped and no later accept in the event sequence spawns anything; the serve
entry point then returns, with the result of every session spawned before the
signal present in the drained join set, each run to completion by the session
function; the breaking loop of HttpReceiver::receive behaves the same way on
an error-free prefix. -/
theorem shutdown_stops_accepts_and_drains (σ τ : Type) (run : σ → τ)
    (pre post : List (AcceptEvent σ)) (sig : AcceptEvent σ)
    (hsig : sig = AcceptEvent.sigterm ∨ sig = AcceptEvent.sigint)
    (hpre : ∀ e ∈ pre, e ≠ AcceptEvent.sigterm ∧ e ≠ AcceptEvent.sigint) :
    receive run (pre ++ sig :: post) = some (true, (acceptedOf pre).map run) ∧
    ((∀ e ∈ pre, ∃ c, e = AcceptEvent.acceptOk c) →
      receiver_receive run (pre ++ sig :: post) = some (Except.ok ((acceptedOf pre).map run))) := by
  constructor
  · rw [receive, receiveGo_signal_drains sig hsig post pre [] hpre]
    simp
  · intro hok
    rw [receiver_receive, receiver_loop_signal_drains sig hsig post pre [] hok]
    simp [Except.map]

/-- C3 witness: a concrete trace with two accepted connections, an accept
error, a SIGTERM and a post-signal accept, through
shutdown_stops_accepts_and_drains. -/
theorem shutdown_stops_accepts_and_drains_witness :
    receive (fun c : Nat => c + 10) [AcceptEvent.acceptOk 1, AcceptEvent.acceptErr,
      AcceptEvent.acceptOk 2, AcceptEvent.sigterm, AcceptEvent.acceptOk 3]
      = some (true, [11, 12]) ∧
    receiver_receive (fun c : Nat => c + 10) [AcceptEvent.acceptOk 1, AcceptEvent.acceptOk 2,
      AcceptEvent.sigterm, AcceptEvent.acceptOk 3] = some (Except.ok [11, 12]) := by
  constructor
  · exact (shutdown_stops_accepts_and_drains Nat Nat (fun c => c + 10)
      [AcceptEvent.acceptOk 1, AcceptEvent.acceptErr, AcceptEvent.acceptOk 2]
      [AcceptEvent.acceptOk 3] AcceptEvent.sigterm (Or.inl rfl) (by decide)).1
  · exact (shutdown_stops_accepts_and_drains Nat Nat (fun c => c + 10)
      [AcceptEvent.acceptOk 1, AcceptEvent.acceptOk 2]
      [AcceptEvent.acceptOk 3] AcceptEvent.sigterm (Or.inl rfl) (by decide)).2
      (by intro e he; fin_cases he <;> exact ⟨_, rfl⟩)

/-! ### Claims C1, C2, C4: routing, the 404 path, and the fault barrier -/

theorem routerAtAux_nomatch (path : String) (routes : List (String × Nat))
    (h : ∀ r ∈ routes, matchSegs (patSegsOf r.1) (pathSegsOf path) = none) :
    ∀ best, routerAtAux path best routes = best := by
  induction routes with
  | nil => intro best; rfl
  | cons r rs ih =>
    intro best
    have hr := h r (List.mem_cons_self r rs)
    have hrs : ∀ x ∈ rs, matchSegs (patSegsOf x.1) (pathSegsOf path) = none :=
      fun x hx => h x (List.mem_cons_of_mem r hx)
    rw [routerAtAux, hr]
    exact ih hrs best

theorem routerAt_nomatch (path : String) (routes : List (String × Nat))
    (h : ∀ r ∈ routes, matchSegs (patSegsOf r.1) (pathSegsOf path) = none) :
    routerAt routes path = none := by
  rw [routerAt, routerAtAux_nomatch path routes h none]
  rfl

/-- C1 counterexample: in the server/http_server.rs variant a request whose
path matches no registered route is answered with the fixed 500 response, not
404. -/
theorem variant_unmatched_route_cex :
    (variant_incoming_request [("/", 0)] (fun _ _ => HandlerOutcome.ok MHttpResponse.ok)
      ⟨"GET", "/missing", "HTTP/1.1", [], [], [], none⟩).1 = ⟨500, [], []⟩ ∧
    (variant_incoming_request [("/", 0)] (fun _ _ => HandlerOutcome.ok MHttpResponse.ok)
      ⟨"GET", "/missing", "HTTP/1.1", [], [], [], none⟩).1.status ≠ 404 := by
  constructor
  · decide
  · decide

/-- C1 amended: when no registered pattern matches the request path,
resolution returns none and no handler is invoked in either implementation;
HttpServer::incoming_request (http/http_server.rs) answers the fixed 404
response with empty headers and body, while the server/http_server.rs variant
answers the fixed 500 response with empty headers and body. -/
theorem unmatched_route_response (routes : List (String × Nat))
    (handlers : Nat → MHttpRequest → HandlerOutcome) (request : MHttpRequest)
    (hnomatch : ∀ r ∈ routes, matchSegs (patSegsOf r.1) (pathSegsOf request.path) = none) :
    routerAt routes request.path = none ∧
    incoming_request routes handlers (Except.ok request) = (⟨404, [], []⟩, []) ∧
    variant_incoming_request routes handlers request = (⟨500, [], []⟩, []) := by
  have hr := routerAt_nomatch request.path routes hnomatch
  refine ⟨hr, ?_, ?_⟩
  · rw [incoming_request, hr]
    rfl
  · rw [variant_incoming_request]
    rw [hr]
    rfl

/-- C1 witness: a registered root route and the path /missing, through
unmatched_route_response. -/
theorem unmatched_route_response_witness :
    routerAt [("/", 0)] "/missing" = none ∧
    incoming_request [("/", 0)] (fun _ _ => HandlerOutcome.ok MHttpResponse.ok)
      (Except.ok ⟨"GET", "/missing", "HTTP/1.1", [], [], [], none⟩) = (⟨404, [], []⟩, []) := by
  have h := unmatched_route_response [("/", 0)] (fun _ _ => HandlerOutcome.ok MHttpResponse.ok)
    ⟨"GET", "/missing", "HTTP/1.1", [], [], [], none⟩ (by decide)
  exact ⟨h.1, h.2.1⟩

/-- C2 counterexample: a panicking handler in an HttpReceiver session aborts
the session task with nothing written, so no internal-error response is
produced for that request. -/
theorem receiver_handler_panic_cex :
    receiver_session [("GET|/", 0)] (fun _ _ _ => HandlerOutcome.panicked) "uuid"
      ⟨"GET", "/", "HTTP/1.1", [], [], [], none⟩
    = Except.error "handler panicked: session task aborted, nothing written" := by decide

/-- C2 amended: in HttpServer::incoming_request a handler panic is caught by
the catch_unwind fault barrier and the session returns exactly one fixed 500
response with empty headers and body (the function totalizes the panic, so
nothing propagates); in an HttpReceiver session a handler panic aborts the
session task and no response at all is written for that request. -/
theorem handler_fault_barrier (routes : List (String × Nat))
    (handlers : Nat → MHttpRequest → HandlerOutcome) (request : MHttpRequest)
    (hid : Nat) (ps : List (String × String))
    (hroute : routerAt routes request.path = some (hid, ps))
    (hpanic : handlers hid { request with params := ps } = HandlerOutcome.panicked) :
    incoming_request routes handlers (Except.ok request) =
      (⟨500, [], []⟩, [(hid, { request with params := ps })]) ∧
    (∀ (rroutes : List (String × Nat)) (rh : Nat → String → MHttpRequest → HandlerOutcome)
       (uuid : String) (rreq : MHttpRequest) (h : Nat),
      mapLookup rroutes (rreq.method ++ "|" ++ rreq.path) = some h →
      rh h uuid rreq = HandlerOutcome.panicked →
      receiver_session rroutes rh uuid rreq =
        Except.error "handler panicked: session task aborted, nothing written") := by
  constructor
  · rw [incoming_request, hroute]
    dsimp only
    rw [hpanic]
    rfl
  · intro rroutes rh uuid rreq h hlook hpanic2
    rw [receiver_session, hlook]
    dsimp only
    rw [hpanic2]

/-- C2 witness: a registered root route whose handler panics, through
handler_fault_barrier. -/
theorem handler_fault_barrier_witness :
    incoming_request [("/", 7)] (fun _ _ => HandlerOutcome.panicked)
      (Except.ok ⟨"GET", "/", "HTTP/1.1", [], [], [], none⟩) =
      (⟨500, [], []⟩, [(7, ⟨"GET", "/", "HTTP/1.1", [], [], [], none⟩)]) ∧
    receiver_session [("GET|/", 9)] (fun _ _ _ => HandlerOutcome.panicked) "u"
      ⟨"GET", "/", "HTTP/1.1", [], [], [], none⟩ =
      Except.error "handler panicked: session task aborted, nothing written" := by
  have h := handler_fault_barrier [("/", 7)] (fun _ _ => HandlerOutcome.panicked)
    ⟨"GET", "/", "HTTP/1.1", [], [], [], none⟩ 7 [] (by decide) rfl
  exact ⟨h.1, h.2 [("GET|/", 9)] (fun _ _ _ => HandlerOutcome.panicked) "u"
    ⟨"GET", "/", "HTTP/1.1", [], [], [], none⟩ 9 (by decide) rfl⟩

theorem routerAtAux_unique (path pat : String) (hid : Nat) (ps : List (List Char × List Char))
    (hm : matchSegs (patSegsOf pat) (pathSegsOf path) = some ps) :
    ∀ (routes : List (String × Nat)),
      (∀ r ∈ routes, matchSegs (patSegsOf r.1) (pathSegsOf path) ≠ none → r = (pat, hid)) →
      ∀ best, (best = some (pat, hid, ps) ∨ (best = none ∧ (pat, hid) ∈ routes)) →
      routerAtAux path best routes = some (pat, hid, ps) := by
  intro routes
  induction routes with
  | nil =>
    intro _ best hbest
    rcases hbest with h | ⟨_, hmem⟩
    · subst h; rfl
    · cases hmem
  | cons r rs ih =>
    intro hu best hbest
    have hurs : ∀ x ∈ rs, matchSegs (patSegsOf x.1) (pathSegsOf path) ≠ none → x = (pat, hid) :=
      fun x hx => hu x (List.mem_cons_of_mem r hx)
    rw [routerAtAux]
    cases hcase : matchSegs (patSegsOf r.1) (pathSegsOf path) with
    | none =>
      rcases hbest with h | ⟨hb, hmem⟩
      · exact ih hurs best (Or.inl h)
      · rcases List.mem_cons.mp hmem with heq | hmem2
        · exfalso
          rw [← heq] at hcase
          rw [hm] at hcase
          cases hcase
        · subst hb
          exact ih hurs none (Or.inr ⟨rfl, hmem2⟩)
    | some qs =>
      have hr : r = (pat, hid) := by
        refine hu r (List.mem_cons_self r rs) ?_
        rw [hcase]
        simp
      subst hr
      have hqs : qs = ps := by
        rw [hm] at hcase
        exact (Option.some.inj hcase).symm
      subst hqs
      dsimp only
      rcases hbest with h | ⟨hb, _⟩
      · subst h
        dsimp only
        by_cases hbet : patBetter (patSegsOf pat) (patSegsOf pat) = true
        · rw [if_pos hbet]
          exact ih hurs (some (pat, hid, qs)) (Or.inl rfl)
        · rw [if_neg hbet]
          exact ih hurs (some (pat, hid, qs)) (Or.inl rfl)
      · subst hb
        dsimp only
        exact ih hurs (some (pat, hid, qs)) (Or.inl rfl)

theorem incoming_request_invocations (routes : List (String × Nat))
    (handlers : Nat → MHttpRequest → HandlerOutcome) (request : MHttpRequest)
    (hid : Nat) (psS : List (String × String))
    (h : routerAt routes request.path = some (hid, psS)) :
    (incoming_request routes handlers (Except.ok request)).2 =
      [(hid, { request with params := psS })] := by
  rw [incoming_request, h]
  dsimp only
  cases handlers hid { request with params := psS } with
  | ok r =>
    cases build_http_response r with
    | ok hres => rfl
    | error e => rfl
  | panicked => rfl

theorem variant_incoming_request_invocations (routes : List (String × Nat))
    (handlers : Nat → MHttpRequest → HandlerOutcome) (request : MHttpRequest)
    (hid : Nat) (psS : List (String × String))
    (h : routerAt routes request.path = some (hid, psS)) :
    (variant_incoming_request routes handlers request).2 =
      [(hid, { request with params := [] })] := by
  rw [variant_incoming_request, h]

/-- C4 counterexample: in the server/http_server.rs variant, a request to
/users/42 matching the registered pattern with the braced id parameter invokes
the handler with an empty params map instead of the binding of id to 42: the
params collection is commented out there. -/
theorem variant_params_dropped_cex :
    (variant_incoming_request [("/users/\x7bid\x7d", 0)]
      (fun _ _ => HandlerOutcome.ok MHttpResponse.ok)
      ⟨"GET", "/users/42", "HTTP/1.1", [], [], [], none⟩).2
      = [(0, ⟨"GET", "/users/42", "HTTP/1.1", [], [], [], none⟩)] ∧
    (variant_incoming_request [("/users/\x7bid\x7d", 0)]
      (fun _ _ => HandlerOutcome.ok MHttpResponse.ok)
      ⟨"GET", "/users/42", "HTTP/1.1", [], [], [], none⟩).2
      ≠ [(0, ⟨"GET", "/users/42", "HTTP/1.1", [], [("id", "42")], [], none⟩)] := by
  constructor
  · decide
  · decide

/-- C4 amended: when pattern P is the unique registered pattern matching the
request path, resolution in HttpServer::incoming_request (http/http_server.rs)
returns P's handler, and the handler is invoked on the request whose params
hold exactly P's named-parameter bindings (each name bound to its matched
segment, nothing else); the server/http_server.rs variant invokes P's handler
but with an empty params map. -/
theorem resolve_unique_match (routes : List (String × Nat))
    (handlers : Nat → MHttpRequest → HandlerOutcome) (request : MHttpRequest)
    (pat : String) (hid : Nat) (ps : List (List Char × List Char))
    (hmem : (pat, hid) ∈ routes)
    (hm : matchSegs (patSegsOf pat) (pathSegsOf request.path) = some ps)
    (huniq : ∀ r ∈ routes, matchSegs (patSegsOf r.1) (pathSegsOf request.path) ≠ none →
      r = (pat, hid)) :
    routerAt routes request.path =
      some (hid, ps.map (fun kv => (String.mk kv.1, String.mk kv.2))) ∧
    (incoming_request routes handlers (Except.ok request)).2 =
      [(hid, { request with params := ps.map (fun kv => (String.mk kv.1, String.mk kv.2)) })] ∧
    (variant_incoming_request routes handlers request).2 =
      [(hid, { request with params := [] })] := by
  have hat : routerAt routes request.path =
      some (hid, ps.map (fun kv => (String.mk kv.1, String.mk kv.2))) := by
    rw [routerAt, routerAtAux_unique request.path pat hid ps hm routes huniq none
      (Or.inr ⟨rfl, hmem⟩)]
    rfl
  exact ⟨hat, incoming_request_invocations routes handlers request hid _ hat,
    variant_incoming_request_invocations routes handlers request hid _ hat⟩

/-- C4 witness: the pattern with the braced id parameter resolved at
/users/42, through resolve_unique_match. -/
theorem resolve_unique_match_witness :
    routerAt [("/users/\x7bid\x7d", 3)] "/users/42" = some (3, [("id", "42")]) ∧
    (incoming_request [("/users/\x7bid\x7d", 3)] (fun _ _ => HandlerOutcome.ok MHttpResponse.ok)
      (Except.ok ⟨"GET", "/users/42", "HTTP/1.1", [], [], [], none⟩)).2 =
      [(3, ⟨"GET", "/users/42", "HTTP/1.1", [], [("id", "42")], [], none⟩)] := by
  have h := resolve_unique_match [("/users/\x7bid\x7d", 3)]
    (fun _ _ => HandlerOutcome.ok MHttpResponse.ok)
    ⟨"GET", "/users/42", "HTTP/1.1", [], [], [], none⟩
    "/users/\x7bid\x7d" 3 [("id".toList, "42".toList)]
    (by decide) (by decide) (by decide)
  exact ⟨h.1, h.2.1⟩

/-! ### Claim C9: header key handling -/

theorem find?_map_replace {κ ν : Type} [DecidableEq κ] (k : κ) (v : ν) :
    ∀ m : List (κ × ν), m.any (fun p => decide (p.1 = k)) = true →
    (m.map (fun p => if p.1 = k then (k, v) else p)).find? (fun p => decide (p.1 = k))
      = some (k, v) := by
  intro m
  induction m with
  | nil => intro h; simp at h
  | cons p m ih =>
    intro h
    by_cases hp : p.1 = k
    · simp [List.map_cons, hp, List.find?]
    · have h' : m.any (fun p => decide (p.1 = k)) = true := by simpa [hp] using h
      have hd : decide (p.1 = k) = false := by simpa using hp
      simp only [List.map_cons, if_neg hp, List.find?, hd]
      exact ih h'

theorem find?_map_replace_other {κ ν : Type} [DecidableEq κ] (k k' : κ) (v : ν)
    (hkk : k ≠ k') :
    ∀ m : List (κ × ν),
    (m.map (fun p => if p.1 = k then (k, v) else p)).find? (fun p => decide (p.1 = k'))
      = m.find? (fun p => decide (p.1 = k')) := by
  intro m
  induction m with
  | nil => rfl
  | cons p m ih =>
    by_cases hp : p.1 = k
    · have hp' : ¬ p.1 = k' := by rw [hp]; exact hkk
      have h1 : decide (k = k') = false := by simpa using hkk
      have h2 : decide (p.1 = k') = false := by simpa using hp'
      simp only [List.map_cons, if_pos hp, List.find?, h1, h2]
      exact ih
    · by_cases hq : p.1 = k'
      · have h1 : decide (p.1 = k') = true := by simpa using hq
        simp only [List.map_cons, if_neg hp, List.find?, h1]
      · have h1 : decide (p.1 = k') = false := by simpa using hq
        simp only [List.map_cons, if_neg hp, List.find?, h1]
        exact ih

theorem mapLookup_mapInsert_self {κ ν : Type} [DecidableEq κ] (m : List (κ × ν)) (k : κ) (v : ν) :
    mapLookup (mapInsert m k v) k = some v := by
  rw [mapInsert]
  by_cases h : m.any (fun p => decide (p.1 = k)) = true
  · rw [if_pos h, mapLookup, find?_map_replace k v m h]
    rfl
  · rw [if_neg h, mapLookup, List.find?_append]
    have hnone : m.find? (fun p => decide (p.1 = k)) = none := by
      rw [List.find?_eq_none]
      intro x hx hxk
      exact h (List.any_eq_true.mpr ⟨x, hx, hxk⟩)
    rw [hnone]
    simp [List.find?]

theorem mapLookup_mapInsert_other {κ ν : Type} [DecidableEq κ] (m : List (κ × ν))
    (k k' : κ) (v : ν) (hkk : k ≠ k') :
    mapLookup (mapInsert m k v) k' = mapLookup m k' := by
  rw [mapInsert]
  by_cases h : m.any (fun p => decide (p.1 = k)) = true
  · rw [if_pos h, mapLookup, find?_map_replace_other k k' v hkk m]
    rfl
  · rw [if_neg h, mapLookup, List.find?_append]
    have hlast : List.find? (fun p => decide (p.1 = k')) [(k, v)] = none := by
      simp [List.find?, hkk]
    rw [hlast, mapLookup]
    cases m.find? (fun p => decide (p.1 = k')) with
    | none => rfl
    | some p => rfl

/-- C9 counterexample: a request whose stream carries the header Foo with
value 1 and then the header foo with value 2 parses into two distinct entries,
and a read of Foo observes the value 1; under the claimed case-insensitive
last-write-wins storage that read would observe the most recent write, 2. -/
theorem header_case_lookup_cex :
    (match RHttpRequest.from_stream (strB "GET / HTTP/1.1\r\nFoo: 1\r\nfoo: 2\r\n\r\n") with
      | Except.ok r => mapLookup r.headers (strB "Foo")
      | Except.error _ => none) = some (strB "1") ∧
    some (strB "1") ≠ some (strB "2") := by
  constructor
  · decide
  · decide

/-- C9 amended: header storage is a plain HashMap with exact, case-sensitive
key equality; last write wins only among identical keys, while a key differing
only in letter case is a separate entry that leaves the other untouched, and
HttpRequest::from_stream accordingly keeps differently-cased keys as distinct
entries with their own values. -/
theorem header_map_case_sensitive_lww :
    (∀ (m : List (String × String)) (k v : String), mapLookup (mapInsert m k v) k = some v) ∧
    (∀ (m : List (String × String)) (k k' v : String), k ≠ k' →
      mapLookup (mapInsert m k v) k' = mapLookup m k') ∧
    ((RHttpRequest.from_stream (strB "GET / HTTP/1.1\r\nFoo: 1\r\nfoo: 2\r\n\r\n")).toOption.map
        (fun r => (mapLookup r.headers (strB "Foo"), mapLookup r.headers (strB "foo"))))
      = some (some (strB "1"), some (strB "2")) := by
  refine ⟨fun m k v => mapLookup_mapInsert_self m k v,
    fun m k k' v h => mapLookup_mapInsert_other m k k' v h, ?_⟩
  decide

/-- C9 witness: the growing header map of the parsed request above, through
header_map_case_sensitive_lww. -/
theorem header_map_case_sensitive_lww_witness :
    mapLookup (mapInsert [("Foo", "1")] "foo" "2") "foo" = some "2" ∧
    mapLookup (mapInsert [("Foo", "1")] "foo" "2") "Foo" = some "1" := by
  constructor
  · exact header_map_case_sensitive_lww.1 [("Foo", "1")] "foo" "2"
  · rw [header_map_case_sensitive_lww.2.1 [("Foo", "1")] "foo" "Foo" "2" (by decide)]
    decide

/-! ### Claim C10: serialization round trip of HttpResponse

Helper lemmas about the byte-string primitives on the exact shapes produced by
to_bytes. -/

theorem dropWhile_eq_self_of_head (l : List Nat)
    (h : ∀ c, l.head? = some c → isWsB c = false) : l.dropWhile isWsB = l := by
  cases l with
  | nil => rfl
  | cons c t =>
    rw [List.dropWhile_cons, h c rfl]
    simp

theorem dropWhile_fix_head (l : List Nat) (p : Nat → Bool) (h : l.dropWhile p = l) :
    ∀ c, l.head? = some c → p c = false := by
  intro c hc
  cases l with
  | nil => cases hc
  | cons a t =>
    cases hc
    by_cases hp : p c = true
    · exfalso
      rw [List.dropWhile_cons, hp] at h
      simp only [if_true] at h
      have hle : (t.dropWhile p).length ≤ t.length := (List.dropWhile_sublist p).length_le
      have hlen := congrArg List.length h
      simp only [List.length_cons] at hlen
      omega
    · simpa using hp

theorem trimB_of_ends (s : List Nat)
    (h1 : ∀ c, s.head? = some c → isWsB c = false)
    (h2 : ∀ c, s.getLast? = some c → isWsB c = false) : trimB s = s := by
  rw [trimB, dropWhile_eq_self_of_head s h1, dropWhile_eq_self_of_head]
  · exact List.reverse_reverse s
  · intro c hc
    rw [List.head?_reverse] at hc
    exact h2 c hc

theorem trimB_fix_dropWhile (s : List Nat) (h : trimB s = s) :
    s.dropWhile isWsB = s ∧ s.reverse.dropWhile isWsB = s.reverse := by
  have hlen := congrArg List.length h
  rw [trimB] at hlen
  simp only [List.length_reverse] at hlen
  have h1 : (s.dropWhile isWsB).length ≤ s.length := (List.dropWhile_sublist isWsB).length_le
  have h2 : ((s.dropWhile isWsB).reverse.dropWhile isWsB).length ≤ (s.dropWhile isWsB).length := by
    have := (List.dropWhile_sublist (l := (s.dropWhile isWsB).reverse) isWsB).length_le
    simpa using this
  have hfix1 : s.dropWhile isWsB = s := by
    have hsuf : s.dropWhile isWsB <:+ s := List.dropWhile_suffix isWsB
    exact List.IsSuffix.eq_of_length hsuf (by omega)
  refine ⟨hfix1, ?_⟩
  rw [trimB, hfix1] at h
  have h' := congrArg List.reverse h
  rw [List.reverse_reverse] at h'
  exact h' 

theorem trimB_fix_head (s : List Nat) (h : trimB s = s) :
    ∀ c, s.head? = some c → isWsB c = false :=
  dropWhile_fix_head s isWsB (trimB_fix_dropWhile s h).1

theorem trimB_fix_last (s : List Nat) (h : trimB s = s) :
    ∀ c, s.getLast? = some c → isWsB c = false := by
  intro c hc
  refine dropWhile_fix_head s.reverse isWsB (trimB_fix_dropWhile s h).2 c ?_
  rw [List.head?_reverse]
  exact hc

theorem takeWhile_dropWhile_line (rest : List Nat) :
    ∀ a : List Nat, (∀ c ∈ a, c ≠ 10) →
      (a ++ 10 :: rest).takeWhile (fun c => c != 10) = a ∧
      (a ++ 10 :: rest).dropWhile (fun c => c != 10) = 10 :: rest := by
  intro a
  induction a with
  | nil => intro _; constructor <;> simp [List.takeWhile, List.dropWhile]
  | cons c t ih =>
    intro h
    have hc : c ≠ 10 := h c (List.mem_cons_self c t)
    have ht := ih (fun x hx => h x (List.mem_cons_of_mem c hx))
    have hcb : (c != 10) = true := by simpa using hc
    constructor
    · rw [List.cons_append, List.takeWhile_cons, hcb]
      simp only [if_true]
      rw [ht.1]
    · rw [List.cons_append, List.dropWhile_cons, hcb]
      simp only [if_true]
      exact ht.2

/-- BufReader::read_line on a stream whose first LF terminates the first line. -/
theorem readLineB_of_prefix (a rest : List Nat) (h : ∀ c ∈ a, c ≠ 10) :
    readLineB (a ++ 10 :: rest) = (a ++ [10], rest) := by
  have ht := takeWhile_dropWhile_line rest a h
  rw [readLineB, ht.2, ht.1]

theorem splitOnceColonB_append (k rest : List Nat) (h : ∀ c ∈ k, c ≠ 58) :
    splitOnceColonB (k ++ 58 :: rest) = some (k, rest) := by
  induction k with
  | nil => simp [splitOnceColonB]
  | cons c t ih =>
    have hc : c ≠ 58 := h c (List.mem_cons_self c t)
    rw [List.cons_append, splitOnceColonB, if_neg (by simpa using hc),
      ih (fun x hx => h x (List.mem_cons_of_mem c hx))]
    rfl

theorem digit_not_ws (c : Nat) (h : isDigitB c = true) : isWsB c = false := by
  simp only [isDigitB, Bool.and_eq_true, decide_eq_true_eq] at h
  simp only [isWsB]
  simp only [Bool.or_eq_false_iff, beq_eq_false_iff_ne]
  omega

theorem decReprB_ws_free (n : Nat) : ∀ c ∈ decReprB n, isWsB c = false := by
  intro c hc
  have := decReprB_all_digits n
  rw [List.all_eq_true] at this
  exact digit_not_ws c (this c hc)

theorem splitWSAux_token (tok : List Nat) (htok : ∀ c ∈ tok, isWsB c = false) :
    ∀ (cur rest : List Nat), splitWSAux cur (tok ++ rest) = splitWSAux (tok.reverse ++ cur) rest := by
  induction tok with
  | nil => intro cur rest; simp
  | cons c t ih =>
    intro cur rest
    have hc : isWsB c = false := htok c (List.mem_cons_self c t)
    rw [List.cons_append, splitWSAux, hc]
    simp only [Bool.false_eq_true, if_false]
    rw [ih (fun x hx => htok x (List.mem_cons_of_mem c hx)) (c :: cur) rest]
    simp

theorem splitWSAux_ws_break (cur : List Nat) (c : Nat) (rest : List Nat)
    (hc : isWsB c = true) (hcur : cur ≠ []) :
    splitWSAux cur (c :: rest) = cur.reverse :: splitWSAux [] rest := by
  rw [splitWSAux, hc]
  simp only [if_true]
  rw [if_neg (by simpa [List.isEmpty_iff] using hcur)]

/-- str::split_whitespace of the serialized status line: exactly the three
tokens. -/
theorem splitWS_three (p d t : List Nat)
    (hp : p ≠ []) (hpw : ∀ c ∈ p, isWsB c = false)
    (hd : d ≠ []) (hdw : ∀ c ∈ d, isWsB c = false)
    (ht : t ≠ []) (htw : ∀ c ∈ t, isWsB c = false) :
    splitWhitespaceB (p ++ 32 :: (d ++ 32 :: (t ++ [13, 10]))) = [p, d, t] := by
  rw [splitWhitespaceB, splitWSAux_token p hpw [] (32 :: (d ++ 32 :: (t ++ [13, 10]))),
    List.append_nil]
  rw [splitWSAux_ws_break p.reverse 32 (d ++ 32 :: (t ++ [13, 10])) rfl
    (by simpa using hp), List.reverse_reverse]
  rw [splitWSAux_token d hdw [] (32 :: (t ++ [13, 10])), List.append_nil]
  rw [splitWSAux_ws_break d.reverse 32 (t ++ [13, 10]) rfl (by simpa using hd),
    List.reverse_reverse]
  rw [splitWSAux_token t htw [] [13, 10], List.append_nil]
  rw [splitWSAux_ws_break t.reverse 13 [10] rfl (by simpa using ht), List.reverse_reverse]
  rfl

/-- Wellformedness of a header key for the round trip: ASCII, no colon, no
LF, and no surrounding whitespace. -/
def headerKeyOkB (k : List Nat) : Prop :=
  (∀ c ∈ k, c < 128 ∧ c ≠ 58 ∧ c ≠ 10) ∧ trimB k = k

/-- Wellformedness of a header value for the round trip: ASCII, no LF, and no
surrounding whitespace. -/
def headerValOkB (v : List Nat) : Prop :=
  (∀ c ∈ v, c < 128 ∧ c ≠ 10) ∧ trimB v = v

theorem trimB_header_line (k v : List Nat) (hk : headerKeyOkB k) (hv : headerValOkB v) :
    trimB (k ++ 58 :: 32 :: (v ++ [13, 10])) =
      if v = [] then k ++ [58] else k ++ 58 :: 32 :: v := by
  have w10 : isWsB 10 = true := by decide
  have w13 : isWsB 13 = true := by decide
  have w32 : isWsB 32 = true := by decide
  have w58 : isWsB 58 = false := by decide
  have hleft : (k ++ 58 :: 32 :: (v ++ [13, 10])).dropWhile isWsB
      = k ++ 58 :: 32 :: (v ++ [13, 10]) := by
    apply dropWhile_eq_self_of_head
    intro c hc
    cases k with
    | nil =>
      simp only [List.nil_append, List.head?_cons, Option.some.injEq] at hc
      subst hc
      decide
    | cons a t =>
      simp only [List.cons_append, List.head?_cons, Option.some.injEq] at hc
      rw [← hc]
      exact trimB_fix_head (a :: t) hk.2 a rfl
  rw [trimB, hleft]
  have hrev : (k ++ 58 :: 32 :: (v ++ [13, 10])).reverse
      = 10 :: 13 :: (v.reverse ++ 32 :: 58 :: k.reverse) := by
    simp
  rw [hrev]
  have hstep : (10 :: 13 :: (v.reverse ++ 32 :: 58 :: k.reverse)).dropWhile isWsB
      = (v.reverse ++ 32 :: 58 :: k.reverse).dropWhile isWsB := by
    rw [List.dropWhile_cons, w10]
    simp only [if_true]
    rw [List.dropWhile_cons, w13]
    simp only [if_true]
  rw [hstep]
  by_cases hveq : v = []
  · subst hveq
    rw [if_pos rfl]
    simp only [List.reverse_nil, List.nil_append]
    rw [List.dropWhile_cons, w32]
    simp only [if_true]
    rw [List.dropWhile_cons, w58]
    simp only [Bool.false_eq_true, if_false]
    simp
  · rw [if_neg hveq]
    have hfix : (v.reverse ++ 32 :: 58 :: k.reverse).dropWhile isWsB
        = v.reverse ++ 32 :: 58 :: k.reverse := by
      apply dropWhile_eq_self_of_head
      intro c hc
      cases hrv : v.reverse with
      | nil => exact absurd (by simpa using congrArg List.reverse hrv) hveq
      | cons b tb =>
        rw [hrv] at hc
        simp only [List.cons_append, List.head?_cons, Option.some.injEq] at hc
        rw [← hc]
        refine trimB_fix_last v hv.2 b ?_
        rw [← List.head?_reverse, hrv]
        rfl
    rw [hfix]
    simp

theorem trimB_space_cons (v : List Nat) (hv : trimB v = v) : trimB (32 :: v) = v := by
  have w32 : isWsB 32 = true := by decide
  have hfix := trimB_fix_dropWhile v hv
  rw [trimB, List.dropWhile_cons, w32]
  simp only [if_true]
  rw [hfix.1, hfix.2, List.reverse_reverse]

theorem headerInsertLine_of_wf (m : List (List Nat × List Nat)) (k v : List Nat)
    (hk : headerKeyOkB k) (hv : headerValOkB v) :
    (trimB (k ++ 58 :: 32 :: (v ++ [13, 10]))).isEmpty = false ∧
    headerInsertLine m (trimB (k ++ 58 :: 32 :: (v ++ [13, 10]))) = mapInsert m k v := by
  rw [trimB_header_line k v hk hv]
  by_cases hveq : v = []
  · subst hveq
    rw [if_pos rfl]
    constructor
    · simp
    · rw [headerInsertLine]
      have hsplit : splitOnceColonB (k ++ [58]) = some (k, []) :=
        splitOnceColonB_append k [] (fun c hc => (hk.1 c hc).2.1)
      rw [hsplit]
      simp only
      rw [hk.2]
      rfl
  · rw [if_neg hveq]
    constructor
    · simp
    · rw [headerInsertLine]
      have hsplit : splitOnceColonB (k ++ 58 :: 32 :: v) = some (k, 32 :: v) :=
        splitOnceColonB_append k (32 :: v) (fun c hc => (hk.1 c hc).2.1)
      rw [hsplit]
      simp only
      rw [hk.2, trimB_space_cons v hv.2]

/-- The header block of to_bytes: one serialized line per entry, in order. -/
def headersBytesB (hs : List (List Nat × List Nat)) : List Nat :=
  (hs.map (fun p => p.1 ++ [58, 32] ++ p.2 ++ [13, 10])).flatten

/-- The headers loop folds insertion over the parsed lines. -/
def insertAllB (m : List (List Nat × List Nat)) (hs : List (List Nat × List Nat)) :
    List (List Nat × List Nat) :=
  hs.foldl (fun acc p => mapInsert acc p.1 p.2) m

theorem headersBytesB_length (hs : List (List Nat × List Nat)) :
    hs.length ≤ (headersBytesB hs).length := by
  induction hs with
  | nil => simp [headersBytesB]
  | cons p hs ih =>
    simp only [headersBytesB, List.map_cons, List.flatten_cons, List.length_append,
      List.length_cons]
    simp only [headersBytesB] at ih
    have : 1 ≤ (p.1 ++ [58, 32] ++ p.2 ++ [13, 10]).length := by
      simp [List.length_append]
      omega
    omega

theorem headersLoopB_serialized :
    ∀ (hs : List (List Nat × List Nat)) (fuel : Nat) (m : List (List Nat × List Nat))
      (tail : List Nat),
      (∀ p ∈ hs, headerKeyOkB p.1 ∧ headerValOkB p.2) →
      hs.length + 1 ≤ fuel →
      headersLoopB fuel (headersBytesB hs ++ 13 :: 10 :: tail) m = (insertAllB m hs, tail) := by
  intro hs
  induction hs with
  | nil =>
    intro fuel m tail _ hfuel
    cases fuel with
    | zero => omega
    | succ f =>
      have hread : readLineB (headersBytesB [] ++ 13 :: 10 :: tail) = ([13, 10], tail) := by
        have := readLineB_of_prefix [13] tail (by decide)
        simpa [headersBytesB] using this
      rw [headersLoopB, hread]
      simp only
      rw [if_pos (by decide)]
      rfl
  | cons p hs ih =>
    intro fuel m tail hwf hfuel
    cases fuel with
    | zero => omega
    | succ f =>
      have hwp := hwf p (List.mem_cons_self p hs)
      have hwrest : ∀ q ∈ hs, headerKeyOkB q.1 ∧ headerValOkB q.2 :=
        fun q hq => hwf q (List.mem_cons_of_mem p hq)
      have hshape : headersBytesB (p :: hs) ++ 13 :: 10 :: tail
          = (p.1 ++ 58 :: 32 :: (p.2 ++ [13])) ++ 10 :: (headersBytesB hs ++ 13 :: 10 :: tail) := by
        simp [headersBytesB]
      have hno10 : ∀ c ∈ p.1 ++ 58 :: 32 :: (p.2 ++ [13]), c ≠ 10 := by
        intro c hc
        rcases List.mem_append.mp hc with hc1 | hc2
        · exact (hwp.1.1 c hc1).2.2
        · rcases List.mem_cons.mp hc2 with rfl | hc3
          · decide
          · rcases List.mem_cons.mp hc3 with rfl | hc4
            · decide
            · rcases List.mem_append.mp hc4 with hc5 | hc6
              · exact (hwp.2.1 c hc5).2
              · rcases List.mem_singleton.mp hc6 with rfl
                decide
      have hread := readLineB_of_prefix (p.1 ++ 58 :: 32 :: (p.2 ++ [13]))
        (headersBytesB hs ++ 13 :: 10 :: tail) hno10
      have hline : (p.1 ++ 58 :: 32 :: (p.2 ++ [13])) ++ [10]
          = p.1 ++ 58 :: 32 :: (p.2 ++ [13, 10]) := by
        simp
      have hstep := headerInsertLine_of_wf m p.1 p.2 hwp.1 hwp.2
      rw [hshape, headersLoopB, hread, hline]
      simp only
      rw [if_neg (by rw [hstep.1]; simp), hstep.2]
      have := ih f (mapInsert m p.1 p.2) tail hwrest (by simpa using hfuel)
      rw [this]
      rfl

theorem insertAllB_disjoint :
    ∀ (hs m : List (List Nat × List Nat)),
      List.Pairwise (fun p q => p.1 ≠ q.1) hs →
      (∀ p ∈ hs, ∀ q ∈ m, q.1 ≠ p.1) →
      insertAllB m hs = m ++ hs := by
  intro hs
  induction hs with
  | nil => intro m _ _; simp [insertAllB]
  | cons p hs ih =>
    intro m hpair hdisj
    have hany : m.any (fun q => decide (q.1 = p.1)) = false := by
      rw [List.any_eq_false]
      intro q hq
      simpa using hdisj p (List.mem_cons_self p hs) q hq
    have hins : mapInsert m p.1 p.2 = m ++ [p] := by
      rw [mapInsert, if_neg (by simp [hany])]
    have hnext : insertAllB m (p :: hs) = insertAllB (mapInsert m p.1 p.2) hs := rfl
    rw [hnext, hins, ih (m ++ [p]) (List.pairwise_cons.mp hpair).2 ?_]
    · simp
    · intro x hx q hq
      rcases List.mem_append.mp hq with hq1 | hq2
      · exact hdisj x (List.mem_cons_of_mem p hx) q hq1
      · rcases List.mem_singleton.mp hq2 with rfl
        exact (List.pairwise_cons.mp hpair).1 x hx

theorem not_ws_ne_ten (c : Nat) (h : isWsB c = false) : c ≠ 10 := by
  intro hc
  subst hc
  cases h

/-- C10 amended: to_bytes then from_stream is the identity on every
HttpResponse whose protocol and status text are nonempty ASCII tokens without
whitespace, whose status code fits a u16, whose header keys are ASCII without
colon or LF and without surrounding whitespace, whose header values are ASCII
without LF and without surrounding whitespace, whose header keys are pairwise
distinct, and whose Content-Length entry is exactly the decimal byte length of
the body. -/
theorem response_roundtrip (r : RHttpResponse)
    (hproto1 : r.protocol ≠ []) (hproto2 : ∀ c ∈ r.protocol, c < 128 ∧ isWsB c = false)
    (htext1 : r.status_text ≠ []) (htext2 : ∀ c ∈ r.status_text, c < 128 ∧ isWsB c = false)
    (hcode : r.status_code < 65536)
    (hhdrs : ∀ p ∈ r.headers, headerKeyOkB p.1 ∧ headerValOkB p.2)
    (hnodup : List.Pairwise (fun p q => p.1 ≠ q.1) r.headers)
    (hcl : mapLookup r.headers contentLengthKey = some (decReprB r.body.length)) :
    RHttpResponse.from_stream (RHttpResponse.to_bytes r) = Except.ok r := by
  obtain ⟨P, code, T, hs, B⟩ := r
  simp only at hproto1 hproto2 htext1 htext2 hcode hhdrs hnodup hcl
  have hstream : RHttpResponse.to_bytes ⟨P, code, T, hs, B⟩
      = (P ++ 32 :: (decReprB code ++ 32 :: (T ++ [13])))
        ++ 10 :: (headersBytesB hs ++ 13 :: 10 :: B) := by
    simp [RHttpResponse.to_bytes, headersBytesB]
  have hno10 : ∀ c ∈ P ++ 32 :: (decReprB code ++ 32 :: (T ++ [13])), c ≠ 10 := by
    intro c hc
    rcases List.mem_append.mp hc with hc1 | hc2
    · exact not_ws_ne_ten c (hproto2 c hc1).2
    · rcases List.mem_cons.mp hc2 with rfl | hc3
      · decide
      · rcases List.mem_append.mp hc3 with hc4 | hc5
        · exact not_ws_ne_ten c (decReprB_ws_free code c hc4)
        · rcases List.mem_cons.mp hc5 with rfl | hc6
          · decide
          · rcases List.mem_append.mp hc6 with hc7 | hc8
            · exact not_ws_ne_ten c (htext2 c hc7).2
            · rcases List.mem_singleton.mp hc8 with rfl
              decide
  have hread := readLineB_of_prefix (P ++ 32 :: (decReprB code ++ 32 :: (T ++ [13])))
    (headersBytesB hs ++ 13 :: 10 :: B) hno10
  have hline : (P ++ 32 :: (decReprB code ++ 32 :: (T ++ [13]))) ++ [10]
      = P ++ 32 :: (decReprB code ++ 32 :: (T ++ [13, 10])) := by
    simp
  have hsplit := splitWS_three P (decReprB code) T hproto1 (fun c hc => (hproto2 c hc).2)
    (decReprB_ne_nil code) (decReprB_ws_free code) htext1 (fun c hc => (htext2 c hc).2)
  have hfuel : hs.length + 1 ≤ (headersBytesB hs ++ 13 :: 10 :: B).length + 1 := by
    have := headersBytesB_length hs
    simp only [List.length_append, List.length_cons]
    omega
  have hloop := headersLoopB_serialized hs ((headersBytesB hs ++ 13 :: 10 :: B).length + 1)
    [] B hhdrs hfuel
  have hall : insertAllB [] hs = hs := by
    rw [insertAllB_disjoint hs [] hnodup (fun p _ q hq => absurd hq (List.not_mem_nil q))]
    simp
  rw [RHttpResponse.from_stream, hstream, hread]
  dsimp only
  rw [hline, hsplit]
  dsimp only
  rw [parseDecB_decReprB code]
  dsimp only
  rw [if_pos hcode, hloop]
  dsimp only
  rw [hall, hcl]
  dsimp only
  rw [parseDecB_decReprB B.length]
  dsimp only [Option.getD_some]
  rw [if_pos (le_refl B.length), List.take_length]

/-- C10 counterexample: a response whose status text is the single token OK
and whose Content-Length is exactly its body length, but with a header key
containing a colon, does not survive the round trip: from_stream splits the
serialized line at the first colon, so the key X:Y comes back as X with value
Y: Z. -/
theorem response_roundtrip_cex :
    RHttpResponse.from_stream (RHttpResponse.to_bytes
      ⟨strB "HTTP/1.1", 200, strB "OK",
       [(contentLengthKey, strB "2"), (strB "X:Y", strB "Z")], strB "ab"⟩)
    ≠ Except.ok
      ⟨strB "HTTP/1.1", 200, strB "OK",
       [(contentLengthKey, strB "2"), (strB "X:Y", strB "Z")], strB "ab"⟩ := by
  decide

instance (k : List Nat) : Decidable (headerKeyOkB k) :=
  decidable_of_iff ((∀ c ∈ k, c < 128 ∧ c ≠ 58 ∧ c ≠ 10) ∧ trimB k = k) Iff.rfl

instance (v : List Nat) : Decidable (headerValOkB v) :=
  decidable_of_iff ((∀ c ∈ v, c < 128 ∧ c ≠ 10) ∧ trimB v = v) Iff.rfl

/-- C10 witness: the round trip at a concrete wellformed response with one
custom header, through response_roundtrip. -/
theorem response_roundtrip_witness :
    RHttpResponse.from_stream (RHttpResponse.to_bytes
      ⟨strB "HTTP/1.1", 200, strB "OK",
       [(contentLengthKey, strB "2"), (strB "X-Tag", strB "Z")], strB "ab"⟩)
    = Except.ok
      ⟨strB "HTTP/1.1", 200, strB "OK",
       [(contentLengthKey, strB "2"), (strB "X-Tag", strB "Z")], strB "ab"⟩ := by
  exact response_roundtrip
    ⟨strB "HTTP/1.1", 200, strB "OK",
     [(contentLengthKey, strB "2"), (strB "X-Tag", strB "Z")], strB "ab"⟩
    (by decide) (by decide) (by decide) (by decide) (by decide) (by decide)
    (by decide) (by decide)
